import Mathlib

/-!
Shallow embedding of the croc relay server (`src/tcp/tcp.go`).

Connections (`*comm.Comm`) are identified by natural numbers; Go compares
them by pointer identity, modelled as equality of these identifiers.
The Go map `map[string]roomInfo` is modelled as an association list with
unique keys (`regNodup`); `regInsert` replaces in place, `regErase`
removes the entry, matching Go map assignment and `delete`.
Go `time.Time` is a natural-number timestamp; `time.Since(opened)` at
instant `now` is the truncated difference `now - opened`.
The external collaborators `pake` and `crypt` are out of scope of the
repository: an encrypted send of plaintext `p` is recorded as the event
`Event.send p` (encryption is a bijection held by both ends), an
unencrypted send as `Event.sendRaw`.  Go slices cannot distinguish `nil`
from an empty non-nil slice in a `List` model; every slice stored in the
room map by the code is non-nil, and `conns != nil` is modelled as
`conns ≠ []` (see the comment at `checkRoomIteration`).
-/

namespace Croc

/-- `roomInfo` from tcp.go: the member connections (join order) and the
creation timestamp. -/
structure roomInfo where
  conns : List Nat
  opened : Nat
  deriving DecidableEq, Repr

/-- The room registry: the Go map `map[string]roomInfo` as an association
list. -/
abbrev Registry := List (String × roomInfo)

/-- Go map lookup `s.rooms.rooms[room]`. -/
def regLookup : Registry → String → Option roomInfo
  | [], _ => none
  | (k, v) :: rest, room => if k = room then some v else regLookup rest room

/-- Go map assignment `s.rooms.rooms[room] = info`: replace in place, or
append when the key is absent. -/
def regInsert : Registry → String → roomInfo → Registry
  | [], room, info => [(room, info)]
  | (k, v) :: rest, room, info =>
      if k = room then (k, info) :: rest else (k, v) :: regInsert rest room info

/-- Go map `delete(s.rooms.rooms, room)`. -/
def regErase : Registry → String → Registry
  | [], _ => []
  | (k, v) :: rest, room =>
      if k = room then rest else (k, v) :: regErase rest room

/-- The keys of the registry are distinct, as in any Go map. -/
def regNodup (reg : Registry) : Prop := (reg.map Prod.fst).Nodup

instance (reg : Registry) : Decidable (regNodup reg) := by
  unfold regNodup; infer_instance

/-- The registry mutation of tcp.go lines 309-330: create the room with
this sole connection when absent, else append the connection. -/
def joinRoom (reg : Registry) (room : String) (c : Nat) (now : Nat) :
    Registry × Bool :=
  match regLookup reg room with
  | none => (regInsert reg room ⟨[c], now⟩, false)
  | some r => (regInsert reg room { r with conns := r.conns ++ [c] }, true)

/-- `deleteConnFromRoom` (tcp.go lines 349-366): filter the connection out
of the member list; delete the room entry when that leaves no members. -/
def deleteConnFromRoom (reg : Registry) (room : String) (conn : Nat) : Registry :=
  match regLookup reg room with
  | none => reg
  | some r =>
      let newConns := r.conns.filter (fun c => c ≠ conn)
      if newConns = [] then regErase reg room
      else regInsert reg room { r with conns := newConns }

/-- `deleteRoom` (tcp.go lines 390-404): remove the entry and return the
member connections that get `Close()`d. -/
def deleteRoom (reg : Registry) (room : String) : Registry × List Nat :=
  match regLookup reg room with
  | none => (reg, [])
  | some r => (regErase reg room, r.conns)

/-- Events observable on the wire and on the registry lock.  `send` is an
encrypted send of a control plaintext to the handshake client, `sendRaw`
an unencrypted send, `relaySend` a send of an opaque frame to a room
member, `close` a `Close()` of a connection. -/
inductive Event where
  | send (plain : String)
  | sendRaw (plain : String)
  | relaySend (recipient : Nat) (frame : List Nat)
  | close (conn : Nat)
  | lockAcquire
  | lockRelease
  deriving DecidableEq, Repr

/-- The server configuration fields of `server` that the handshake reads. -/
structure ServerConfig where
  password : String
  banner : String
  deriving DecidableEq, Repr

/-- The reserved room name returned on the ping path (tcp.go line 43). -/
def pingRoom : String := "pinglkasjdlfjsaldjf"

/-- The per-connection inputs of one handshake: the first framed payload,
the decrypted password and room-name plaintexts the client sent, the
observed remote address, and the transport outcome of each fallible
`Send` the handshake performs (true = the send succeeded). -/
structure CommInput where
  firstPayload : String
  pw : String
  roomName : String
  remoteAddr : String
  errSendOk : Bool
  bannerSendOk : Bool
  ackSendOk : Bool
  deriving DecidableEq, Repr

/-- Result of `clientCommunication`: the returned `room` string, whether
the returned `err` is non-nil, the registry after the call, and the send
events the call performed (an event records the attempt; a failed
transport write is still an attempt). -/
structure CCResult where
  room : String
  err : Bool
  reg : Registry
  events : List Event
  deriving DecidableEq, Repr

/-- Go `strings.TrimSpace`: drop leading and trailing whitespace
characters (structurally, on the character list, so that it evaluates in
the kernel; `Char.isWhitespace` plays the role of `unicode.IsSpace`). -/
def goTrimSpace (s : String) : String :=
  ⟨((s.data.dropWhile Char.isWhitespace).reverse.dropWhile Char.isWhitespace).reverse⟩

/-- Go `strings.Contains(s, "|||")` for the fixed separator the protocol
uses, on the character list. -/
def hasSep : List Char → Bool
  | '|' :: '|' :: '|' :: _ => true
  | _ :: rest => hasSep rest
  | [] => false

/-- The text before the first `"|||"` separator:
Go `strings.Split(s, "|||")[0]`. -/
def beforeSep : List Char → List Char
  | '|' :: '|' :: '|' :: _ => []
  | c :: rest => c :: beforeSep rest
  | [] => []

/-- The text after the first `"|||"` separator; `beforeSep ∘ afterSep` is
Go `strings.Split(s, "|||")[1]`. -/
def afterSep : List Char → List Char
  | '|' :: '|' :: '|' :: rest => rest
  | _ :: rest => afterSep rest
  | [] => []

/-- The banner substitution of tcp.go lines 283-286: an empty configured
banner is replaced by the literal `"ok"`. -/
def effectiveBanner (banner : String) : String :=
  if banner.length = 0 then "ok" else banner

/-- `clientCommunication` (tcp.go lines 223-347), from the first receive
on.  The PAKE rounds, the salt receive and the `crypt` key derivation are
external collaborators; their failure branches return early with a
non-nil error and an untouched registry, and their payloads do not appear
among the control plaintexts, so they are elided.  `goTrimSpace` models
`strings.TrimSpace`.  Line 276 `if err = c.Send(enc); err != nil`
overwrites the "bad password" error with the send result, so a successful
error-message send makes the function return `room = ""` and a nil
error. -/
def clientCommunication (cfg : ServerConfig) (c : Nat) (inp : CommInput)
    (reg : Registry) (now : Nat) : CCResult :=
  if inp.firstPayload = "ping" then
    { room := pingRoom, err := false, reg := reg, events := [.sendRaw "pong"] }
  else if goTrimSpace inp.pw ≠ cfg.password then
    if inp.errSendOk then
      { room := "", err := false, reg := reg, events := [.send "bad password"] }
    else
      { room := "", err := true, reg := reg, events := [.send "bad password"] }
  else
    let bannerMsg := effectiveBanner cfg.banner ++ "|||" ++ inp.remoteAddr
    if ¬ inp.bannerSendOk then
      { room := "", err := true, reg := reg, events := [.send bannerMsg] }
    else
      match regLookup reg inp.roomName with
      | none =>
          let reg2 := regInsert reg inp.roomName ⟨[c], now⟩
          if inp.ackSendOk then
            { room := inp.roomName, err := false, reg := reg2,
              events := [.send bannerMsg, .send "ok"] }
          else
            { room := inp.roomName, err := true, reg := reg2,
              events := [.send bannerMsg, .send "ok"] }
      | some r =>
          let reg2 := regInsert reg inp.roomName { r with conns := r.conns ++ [c] }
          if inp.ackSendOk then
            { room := inp.roomName, err := false, reg := reg2,
              events := [.send bannerMsg, .send "ok"] }
          else
            { room := inp.roomName, err := true,
              reg := deleteConnFromRoom reg2 inp.roomName c,
              events := [.send bannerMsg, .send "ok"] }

/-- One broadcast of `handleRoomConnection` (tcp.go lines 377-386), run
after `sender.Receive()` returned the frame `data`: take the lock, and if
the room is still present send the frame to every member other than the
sender (per-recipient errors are ignored, `_ = conn.Send(data)`), then
release the lock.  The trace records the sends between the lock events,
exactly where the code performs them. -/
def broadcastStep (reg : Registry) (room : String) (sender : Nat)
    (data : List Nat) : List Event :=
  match regLookup reg room with
  | none => [.lockAcquire, .lockRelease]
  | some r =>
      [Event.lockAcquire]
        ++ (r.conns.filter (fun c => c ≠ sender)).map (fun c => .relaySend c data)
        ++ [Event.lockRelease]

/-- The connections a trace sends an opaque frame to. -/
def sendTargets (evs : List Event) : List Nat :=
  evs.filterMap (fun e => match e with
    | .relaySend c _ => some c
    | _ => none)

/-- The recipients of a trace whose own socket write succeeded, given the
per-connection transport outcome `sendOk`. -/
def deliveredTargets (evs : List Event) (sendOk : Nat → Bool) : List Nat :=
  (sendTargets evs).filter sendOk

/-- Whether a trace performs a socket send while the registry lock is
held (`d` is the current lock depth). -/
def ioInCritical : List Event → Nat → Bool
  | [], _ => false
  | .lockAcquire :: rest, d => ioInCritical rest (d + 1)
  | .lockRelease :: rest, d => ioInCritical rest (d - 1)
  | .relaySend _ _ :: rest, d => decide (0 < d) || ioInCritical rest d
  | _ :: rest, d => ioInCritical rest d

/-- How one pass of the post-handshake check loop ends. -/
inductive LoopOutcome where
  | roomGone
  | ready
  | deleted
  | again
  deriving DecidableEq, Repr

/-- One pass of the polling loop in `run` (tcp.go lines 153-183).  Under
the lock: return when the room is gone; break ("ready") when
`conns != nil`; otherwise the `else` branch re-tests `conns != nil` and
only on success probes `conns[0]` with a one-byte send, setting
`deleteIt` on probe failure — the re-test contradicts the branch it sits
in, so the probe is dead code.  Go `conns != nil` is modelled as
`conns ≠ []`: every slice the code stores in the map is non-nil, so
nil-ness and emptiness coincide on reachable registries, and under both
readings the inner test repeats the outer one.  `probeOk` is the
transport outcome the probe send would have. -/
def checkRoomIteration (reg : Registry) (room : String) (probeOk : Bool) :
    Registry × List Event × LoopOutcome :=
  match regLookup reg room with
  | none => (reg, [.lockAcquire, .lockRelease], .roomGone)
  | some r =>
      if r.conns ≠ [] then
        (reg, [.lockAcquire, .lockRelease], .ready)
      else
        match r.conns with
        | first :: _ =>
            if probeOk then
              (reg, [.lockAcquire, .relaySend first [1], .lockRelease], .again)
            else
              let d := deleteRoom reg room
              (d.1,
               [.lockAcquire, .relaySend first [1], .lockRelease]
                 ++ d.2.map .close,
               .deleted)
        | [] => (reg, [.lockAcquire, .lockRelease], .again)

/-- The polling loop of `run`, fuel-bounded (each pass ends with a
one-second sleep in the code, so only finitely many passes happen in any
finite observation window).  `probeOk n` is the outcome the probe send
would have on pass `n`. -/
def runCheckLoop : Nat → Registry → String → (Nat → Bool) → Registry × List Event
  | 0, reg, _, _ => (reg, [])
  | Nat.succ fuel, reg, room, probeOk =>
      match checkRoomIteration reg room (probeOk 0) with
      | (reg2, evs, .again) =>
          let rest := runCheckLoop fuel reg2 room (fun n => probeOk (n + 1))
          (rest.1, evs ++ rest.2)
      | (reg2, evs, _) => (reg2, evs)

/-- The accept-path goroutine of `run` (tcp.go lines 138-184): run the
handshake; on a non-nil error close the connection and return; on the
ping room close the connection and return; otherwise enter the check
loop, none of whose exits closes the connection. -/
def acceptConnection (cfg : ServerConfig) (c : Nat) (inp : CommInput)
    (reg : Registry) (now : Nat) (fuel : Nat) (probeOk : Nat → Bool) :
    Registry × List Event :=
  let res := clientCommunication cfg c inp reg now
  if res.err then (res.reg, res.events ++ [.close c])
  else if res.room = pingRoom then (res.reg, res.events ++ [.close c])
  else
    let rest := runCheckLoop fuel res.reg res.room probeOk
    (rest.1, res.events ++ rest.2)

/-- The deletion loop of `deleteOldRooms` (tcp.go lines 204-207): delete
each collected room via `deleteRoom`, accumulating the closed
connections. -/
def deleteRooms : Registry → List String → List Nat → Registry × List Nat
  | reg, [], closedAcc => (reg, closedAcc)
  | reg, room :: rest, closedAcc =>
      let d := deleteRoom reg room
      deleteRooms d.1 rest (closedAcc ++ d.2)

/-- One tick of `deleteOldRooms` (tcp.go lines 194-207): under the lock
collect every room whose age exceeds the TTL (`time.Since(opened) >
roomTTL` at instant `now`), then delete each collected room. -/
def deleteOldRoomsTick (reg : Registry) (now ttl : Nat) : Registry × List Nat :=
  let roomsToDelete :=
    (reg.filter (fun p => decide (ttl < now - p.2.opened))).map Prod.fst
  deleteRooms reg roomsToDelete []

/-- The client-side banner step of `ConnectToTCPServer` (tcp.go lines
557-568): require the literal separator `"|||"` in the decrypted data
(`strings.Contains`), else fail with `"bad response: <data>"`; on success
split on the separator (`strings.Split`) into banner (part 0) and
address (part 1). -/
def connectBannerStep (data : String) : Except String (String × String) :=
  if hasSep data.data then
    .ok (⟨beforeSep data.data⟩, ⟨beforeSep (afterSep data.data)⟩)
  else .error ("bad response: " ++ data)

/-- The client-side room acknowledgement step of `ConnectToTCPServer`
(tcp.go lines 591-595): require the decrypted data to equal `"ok"`, else
fail with `"got bad response: <data>"`. -/
def connectAckStep (data : String) : Except String Unit :=
  if data = "ok" then .ok ()
  else .error ("got bad response: " ++ data)

/-- The invariant of the claim: every room entry present in the registry
has a non-empty member list. -/
def nonEmptyRooms (reg : Registry) : Prop :=
  ∀ p ∈ reg, p.2.conns ≠ []

instance (reg : Registry) : Decidable (nonEmptyRooms reg) := by
  unfold nonEmptyRooms; infer_instance

theorem regLookup_regInsert_self (reg : Registry) (k : String) (v : roomInfo) :
    regLookup (regInsert reg k v) k = some v := by
  induction reg with
  | nil => simp [regInsert, regLookup]
  | cons p rest ih =>
      obtain ⟨k', v'⟩ := p
      by_cases h : k' = k
      · subst h; simp [regInsert, regLookup]
      · simp [regInsert, regLookup, h, ih]

theorem regInsert_lookup_self {reg : Registry} {k : String} {v : roomInfo}
    (h : regLookup reg k = some v) : regInsert reg k v = reg := by
  induction reg with
  | nil => simp [regLookup] at h
  | cons p rest ih =>
      obtain ⟨k', v'⟩ := p
      by_cases hk : k' = k
      · subst hk
        simp [regLookup] at h
        simp [regInsert, h]
      · simp [regLookup, hk] at h
        simp [regInsert, hk, ih h]

theorem regInsert_regInsert (reg : Registry) (k : String) (v w : roomInfo) :
    regInsert (regInsert reg k v) k w = regInsert reg k w := by
  induction reg with
  | nil => simp [regInsert]
  | cons p rest ih =>
      obtain ⟨k', v'⟩ := p
      by_cases h : k' = k
      · subst h; simp [regInsert]
      · simp [regInsert, h, ih]

theorem mem_regInsert {reg : Registry} {k : String} {v : roomInfo}
    {p : String × roomInfo} (h : p ∈ regInsert reg k v) :
    p = (k, v) ∨ p ∈ reg := by
  induction reg with
  | nil => simpa [regInsert] using h
  | cons q rest ih =>
      obtain ⟨k', v'⟩ := q
      by_cases hk : k' = k
      · subst hk
        simp [regInsert] at h
        rcases h with h | h
        · exact Or.inl (by simp [h])
        · exact Or.inr (by simp [h])
      · simp [regInsert, hk] at h
        rcases h with h | h
        · exact Or.inr (by simp [h])
        · rcases ih h with h' | h'
          · exact Or.inl h'
          · exact Or.inr (by simp [h'])

theorem mem_regErase {reg : Registry} {k : String}
    {p : String × roomInfo} (h : p ∈ regErase reg k) : p ∈ reg := by
  induction reg with
  | nil => simp [regErase] at h
  | cons q rest ih =>
      obtain ⟨k', v'⟩ := q
      by_cases hk : k' = k
      · subst hk
        simp [regErase] at h
        simp [h]
      · simp [regErase, hk] at h
        rcases h with h | h
        · simp [h]
        · simp [ih h]

theorem regLookup_regErase_ne {k room : String} (reg : Registry)
    (h : k ≠ room) : regLookup (regErase reg room) k = regLookup reg k := by
  induction reg with
  | nil => simp [regErase]
  | cons q rest ih =>
      obtain ⟨k', v'⟩ := q
      by_cases hk : k' = room
      · subst hk
        have : k' ≠ k := fun hh => h hh.symm
        simp [regErase, regLookup, this]
      · by_cases hkk : k' = k
        · subst hkk; simp [regErase, hk, regLookup]
        · simp [regErase, hk, regLookup, hkk, ih]

theorem regLookup_eq_none (reg : Registry) (k : String)
    (h : k ∉ reg.map Prod.fst) : regLookup reg k = none := by
  induction reg with
  | nil => simp [regLookup]
  | cons q rest ih =>
      obtain ⟨k', v'⟩ := q
      rw [List.map_cons] at h
      have h1 : k' ≠ k := fun hk => h (hk ▸ List.mem_cons_self _ _)
      have h2 : k ∉ rest.map Prod.fst := fun hk => h (List.mem_cons_of_mem _ hk)
      simp [regLookup, h1, ih h2]

theorem regLookup_regErase_self {reg : Registry} {k : String}
    (h : regNodup reg) : regLookup (regErase reg k) k = none := by
  induction reg with
  | nil => simp [regErase, regLookup]
  | cons q rest ih =>
      obtain ⟨k', v'⟩ := q
      unfold regNodup at h
      rw [List.map_cons, List.nodup_cons] at h
      by_cases hk : k' = k
      · subst hk
        simp only [regErase, if_pos rfl]
        exact regLookup_eq_none rest k' h.1
      · simp [regErase, hk, regLookup, ih h.2]

theorem regNodup_regErase {reg : Registry} (k : String)
    (h : regNodup reg) : regNodup (regErase reg k) := by
  induction reg with
  | nil => simpa [regErase] using h
  | cons q rest ih =>
      obtain ⟨k', v'⟩ := q
      unfold regNodup at h ⊢
      rw [List.map_cons, List.nodup_cons] at h
      by_cases hk : k' = k
      · subst hk; simpa [regErase] using h.2
      · have heq : regErase ((k', v') :: rest) k = (k', v') :: regErase rest k := by
          simp [regErase, hk]
        rw [heq, List.map_cons, List.nodup_cons]
        refine ⟨fun hmem => ?_, ih h.2⟩
        obtain ⟨p, hp, hfst⟩ := List.mem_map.mp hmem
        exact h.1 (List.mem_map.mpr ⟨p, mem_regErase hp, hfst⟩)

theorem regLookup_of_mem {reg : Registry} {k : String} {v : roomInfo}
    (hnd : regNodup reg) (h : (k, v) ∈ reg) : regLookup reg k = some v := by
  induction reg with
  | nil => simp at h
  | cons q rest ih =>
      obtain ⟨k', v'⟩ := q
      unfold regNodup at hnd
      rw [List.map_cons, List.nodup_cons] at hnd
      rcases List.mem_cons.mp h with h | h
      · rw [Prod.mk.injEq] at h
        obtain ⟨h1, h2⟩ := h
        subst h1; subst h2
        simp [regLookup]
      · have hne : k' ≠ k := by
          intro hk
          subst hk
          exact hnd.1 (List.mem_map.mpr ⟨(k', v), h, rfl⟩)
        simp [regLookup, hne, ih hnd.2 h]

theorem deleteRoom_lookup_other {k room : String} (reg : Registry)
    (h : k ≠ room) :
    regLookup (deleteRoom reg room).1 k = regLookup reg k := by
  cases hr : regLookup reg room with
  | none => simp [deleteRoom, hr]
  | some r => simp [deleteRoom, hr, regLookup_regErase_ne reg h]

theorem deleteRoom_lookup_self {reg : Registry} (room : String)
    (hnd : regNodup reg) :
    regLookup (deleteRoom reg room).1 room = none := by
  cases hr : regLookup reg room with
  | none => simp [deleteRoom, hr]
  | some r => simp [deleteRoom, hr, regLookup_regErase_self hnd]

theorem regNodup_deleteRoom {reg : Registry} (room : String)
    (hnd : regNodup reg) : regNodup (deleteRoom reg room).1 := by
  cases hr : regLookup reg room with
  | none => simpa [deleteRoom, hr] using hnd
  | some r => simpa [deleteRoom, hr] using regNodup_regErase room hnd

theorem deleteRooms_closed_mono (rooms : List String) :
    ∀ (reg : Registry) (acc : List Nat) (x : Nat),
      x ∈ acc → x ∈ (deleteRooms reg rooms acc).2 := by
  induction rooms with
  | nil => intro reg acc x hx; simpa [deleteRooms] using hx
  | cons room rest ih =>
      intro reg acc x hx
      simp only [deleteRooms]
      exact ih _ _ x (List.mem_append_left _ hx)

theorem deleteRooms_lookup_not_mem {k : String} (rooms : List String) :
    ∀ (reg : Registry) (acc : List Nat), k ∉ rooms →
      regLookup (deleteRooms reg rooms acc).1 k = regLookup reg k := by
  induction rooms with
  | nil => intro reg acc _; rfl
  | cons room rest ih =>
      intro reg acc h
      have hk : k ≠ room := fun he => h (he ▸ List.mem_cons_self _ _)
      have hrest : k ∉ rest := fun he => h (List.mem_cons_of_mem _ he)
      simp only [deleteRooms]
      rw [ih _ _ hrest, deleteRoom_lookup_other reg hk]

theorem deleteRooms_lookup_none {k : String} (rooms : List String) :
    ∀ (reg : Registry) (acc : List Nat), regLookup reg k = none →
      regLookup (deleteRooms reg rooms acc).1 k = none := by
  induction rooms with
  | nil => intro reg acc h; exact h
  | cons room rest ih =>
      intro reg acc h
      simp only [deleteRooms]
      apply ih
      by_cases hk : k = room
      · subst hk; simp [deleteRoom, h]
      · rw [deleteRoom_lookup_other reg hk]; exact h

theorem deleteRooms_lookup_mem {k : String} (rooms : List String) :
    ∀ (reg : Registry) (acc : List Nat), regNodup reg → k ∈ rooms →
      regLookup (deleteRooms reg rooms acc).1 k = none := by
  induction rooms with
  | nil => intro _ _ _ h; simp at h
  | cons room rest ih =>
      intro reg acc hnd h
      simp only [deleteRooms]
      by_cases hk : k = room
      · subst hk
        exact deleteRooms_lookup_none rest _ _ (deleteRoom_lookup_self k hnd)
      · exact ih _ _ (regNodup_deleteRoom room hnd)
          ((List.mem_cons.mp h).resolve_left hk)

theorem deleteRooms_closed {k : String} {r : roomInfo} (rooms : List String) :
    ∀ (reg : Registry) (acc : List Nat), k ∈ rooms →
      regLookup reg k = some r →
      ∀ x ∈ r.conns, x ∈ (deleteRooms reg rooms acc).2 := by
  induction rooms with
  | nil => intro _ _ h; simp at h
  | cons room rest ih =>
      intro reg acc hmem hl x hx
      simp only [deleteRooms]
      by_cases hk : k = room
      · subst hk
        have hd : deleteRoom reg k = (regErase reg k, r.conns) := by
          simp [deleteRoom, hl]
        rw [hd]
        exact deleteRooms_closed_mono rest _ _ x (List.mem_append_right _ hx)
      · have hl2 : regLookup (deleteRoom reg room).1 k = some r := by
          rw [deleteRoom_lookup_other reg hk]; exact hl
        exact ih _ _ ((List.mem_cons.mp hmem).resolve_left hk) hl2 x hx

theorem regLookup_of_mem_pair {reg : Registry} {p : String × roomInfo}
    (hnd : regNodup reg) (h : p ∈ reg) : regLookup reg p.1 = some p.2 := by
  obtain ⟨k, v⟩ := p
  exact regLookup_of_mem hnd h

theorem eq_of_mem_of_keys_eq {reg : Registry} {p q : String × roomInfo}
    (hnd : regNodup reg) (hp : p ∈ reg) (hq : q ∈ reg) (h : p.1 = q.1) :
    p = q := by
  have h1 := regLookup_of_mem_pair hnd hp
  have h2 := regLookup_of_mem_pair hnd hq
  rw [h, h2] at h1
  obtain ⟨k, v⟩ := p
  obtain ⟨k2, v2⟩ := q
  simp only at h h1
  rw [Prod.mk.injEq]
  exact ⟨h, (Option.some.inj h1).symm⟩

/-- C4: every registry operation — the join performed by the handshake,
the leave performed on a read error or a failed acknowledgement
(`deleteConnFromRoom`), and room deletion (`deleteRoom`) — preserves the
invariant that every room entry present in the registry has a non-empty
member list; the leave deletes the room entry whenever removing the
member leaves zero members, so no reachable registry state contains an
empty room. -/
theorem C4_registry_ops_preserve_nonEmptyRooms (reg : Registry)
    (room : String) (c now : Nat) (h : nonEmptyRooms reg) :
    nonEmptyRooms (joinRoom reg room c now).1 ∧
    nonEmptyRooms (deleteConnFromRoom reg room c) ∧
    nonEmptyRooms (deleteRoom reg room).1 := by
  refine ⟨?_, ?_, ?_⟩
  · simp only [joinRoom]
    cases hr : regLookup reg room with
    | none =>
        intro p hp
        rcases mem_regInsert hp with rfl | hp
        · simp
        · exact h p hp
    | some r =>
        intro p hp
        rcases mem_regInsert hp with rfl | hp
        · simp
        · exact h p hp
  · simp only [deleteConnFromRoom]
    cases hr : regLookup reg room with
    | none => exact h
    | some r =>
        by_cases hempty : r.conns.filter (fun x => x ≠ c) = []
        · simp only [hempty, if_pos rfl]
          intro p hp
          exact h p (mem_regErase hp)
        · simp only [if_neg hempty]
          intro p hp
          rcases mem_regInsert hp with rfl | hp
          · simpa using hempty
          · exact h p hp
  · simp only [deleteRoom]
    cases hr : regLookup reg room with
    | none => exact h
    | some r =>
        intro p hp
        exact h p (mem_regErase hp)

theorem C4_witness :
    nonEmptyRooms (joinRoom [("a", ⟨[1], 0⟩)] "a" 1 5).1 ∧
    nonEmptyRooms (deleteConnFromRoom [("a", ⟨[1], 0⟩)] "a" 1) ∧
    nonEmptyRooms (deleteRoom [("a", ⟨[1], 0⟩)] "a").1 :=
  C4_registry_ops_preserve_nonEmptyRooms [("a", ⟨[1], 0⟩)] "a" 1 5 (by decide)

/-- C6: on a janitor tick at instant `now`, every room whose age exceeds
the configured TTL is deleted via `deleteRoom` (its entry removed from
the registry and every member connection closed), and every room whose
age does not exceed the TTL keeps its entry unchanged. -/
theorem C6_deleteOldRoomsTick_spec (reg : Registry) (now ttl : Nat)
    (hnd : regNodup reg) :
    (∀ p ∈ reg, ttl < now - p.2.opened →
        regLookup (deleteOldRoomsTick reg now ttl).1 p.1 = none ∧
        ∀ x ∈ p.2.conns, x ∈ (deleteOldRoomsTick reg now ttl).2) ∧
    (∀ p ∈ reg, ¬ ttl < now - p.2.opened →
        regLookup (deleteOldRoomsTick reg now ttl).1 p.1 = some p.2) := by
  constructor
  · intro p hp hexp
    have hmem : p.1 ∈
        ((reg.filter (fun q => decide (ttl < now - q.2.opened))).map Prod.fst) :=
      List.mem_map.mpr ⟨p, List.mem_filter.mpr ⟨hp, by simpa using hexp⟩, rfl⟩
    refine ⟨?_, ?_⟩
    · exact deleteRooms_lookup_mem _ _ _ hnd hmem
    · exact deleteRooms_closed _ _ _ hmem (regLookup_of_mem_pair hnd hp)
  · intro p hp hexp
    have hnotmem : p.1 ∉
        ((reg.filter (fun q => decide (ttl < now - q.2.opened))).map Prod.fst) := by
      intro hin
      obtain ⟨q, hq, hfst⟩ := List.mem_map.mp hin
      obtain ⟨hq1, hq2⟩ := List.mem_filter.mp hq
      have hpq : q = p := eq_of_mem_of_keys_eq hnd hq1 hp hfst
      rw [hpq] at hq2
      exact hexp (by simpa using hq2)
    simp only [deleteOldRoomsTick]
    rw [deleteRooms_lookup_not_mem _ _ _ hnotmem]
    exact regLookup_of_mem_pair hnd hp

theorem C6_witness :
    regLookup (deleteOldRoomsTick [("old", ⟨[1, 2], 0⟩), ("new", ⟨[3], 9⟩)] 10 5).1 "old"
        = none ∧
    (1 ∈ (deleteOldRoomsTick [("old", ⟨[1, 2], 0⟩), ("new", ⟨[3], 9⟩)] 10 5).2) ∧
    regLookup (deleteOldRoomsTick [("old", ⟨[1, 2], 0⟩), ("new", ⟨[3], 9⟩)] 10 5).1 "new"
        = some ⟨[3], 9⟩ := by
  have h := C6_deleteOldRoomsTick_spec [("old", ⟨[1, 2], 0⟩), ("new", ⟨[3], 9⟩)] 10 5
    (by decide)
  refine ⟨?_, ?_, ?_⟩
  · exact (h.1 ("old", ⟨[1, 2], 0⟩) (by decide) (by decide)).1
  · exact (h.1 ("old", ⟨[1, 2], 0⟩) (by decide) (by decide)).2 1 (by decide)
  · exact h.2 ("new", ⟨[3], 9⟩) (by decide) (by decide)

/-- C2: a connection whose decrypted password, after trimming
whitespace, differs from the configured password is never sent the
encrypted "ok" room acknowledgement and is never added to any room's
member list: the handshake leaves the registry untouched and its event
trace contains no send of the plaintext "ok". -/
theorem C2_wrong_password_no_room (cfg : ServerConfig) (c : Nat)
    (inp : CommInput) (reg : Registry) (now : Nat)
    (h : goTrimSpace inp.pw ≠ cfg.password) :
    (clientCommunication cfg c inp reg now).reg = reg ∧
    Event.send "ok" ∉ (clientCommunication cfg c inp reg now).events := by
  unfold clientCommunication
  by_cases hping : inp.firstPayload = "ping"
  · simp [hping]
  · rw [if_neg hping, if_pos h]
    cases he : inp.errSendOk <;> simp

theorem C2_witness :
    (clientCommunication ⟨"p", ""⟩ 4 ⟨"x", "wrong", "r", "addr", true, true, true⟩
        [] 0).reg = [] ∧
    Event.send "ok" ∉ (clientCommunication ⟨"p", ""⟩ 4
        ⟨"x", "wrong", "r", "addr", true, true, true⟩ [] 0).events :=
  C2_wrong_password_no_room ⟨"p", ""⟩ 4 ⟨"x", "wrong", "r", "addr", true, true, true⟩
    [] 0 (by decide)

/-- C3 counterexample: with an empty registry, a matching password and a
failing room-acknowledgement send, the handshake creates room "r" for
connection 5, the acknowledgement send fails (the call returns a non-nil
error), yet the just-added membership is NOT removed: the registry still
holds room "r" with member 5 instead of being restored to the (empty)
pre-join state. -/
theorem C3_counterexample :
    (clientCommunication ⟨"p", "b"⟩ 5 ⟨"x", "p", "r", "a", true, true, false⟩
        [] 0).err = true ∧
    (clientCommunication ⟨"p", "b"⟩ 5 ⟨"x", "p", "r", "a", true, true, false⟩
        [] 0).reg = [("r", ⟨[5], 0⟩)] := by
  decide

/-- C3 amended: the rollback on a failed "ok" acknowledgement send
happens only when the room already existed (the append branch): there
the just-added membership is removed and the registry is restored to its
pre-join state.  When the room was newly created, the failed-send branch
returns without any rollback and the new room, containing only the dead
connection, stays in the registry. -/
theorem C3_amended_rollback (cfg : ServerConfig) (c : Nat) (inp : CommInput)
    (reg : Registry) (now : Nat)
    (hping : inp.firstPayload ≠ "ping")
    (hpw : goTrimSpace inp.pw = cfg.password)
    (hb : inp.bannerSendOk = true)
    (hack : inp.ackSendOk = false) :
    (∀ r, regLookup reg inp.roomName = some r → c ∉ r.conns → r.conns ≠ [] →
        (clientCommunication cfg c inp reg now).reg = reg) ∧
    (regLookup reg inp.roomName = none →
        (clientCommunication cfg c inp reg now).reg
          = regInsert reg inp.roomName ⟨[c], now⟩) := by
  constructor
  · intro r hr hc hne
    unfold clientCommunication
    rw [if_neg hping, if_neg (fun hh => hh hpw)]
    simp only [hb, not_true_eq_false, if_false, hr, hack, Bool.false_eq_true,
      if_neg (Bool.false_ne_true)]
    unfold deleteConnFromRoom
    rw [regLookup_regInsert_self]
    have hfilter : (r.conns ++ [c]).filter (fun x => x ≠ c) = r.conns := by
      rw [List.filter_append]
      have h1 : r.conns.filter (fun x => x ≠ c) = r.conns :=
        List.filter_eq_self.mpr (fun x hx => by
          simp only [ne_eq, decide_eq_true_eq]
          intro he
          exact hc (he ▸ hx))
      have h2 : [c].filter (fun x => x ≠ c) = [] := by simp
      rw [h1, h2, List.append_nil]
    simp only [hfilter, if_neg hne]
    rw [regInsert_regInsert]
    exact regInsert_lookup_self hr
  · intro hr
    unfold clientCommunication
    rw [if_neg hping, if_neg (fun hh => hh hpw)]
    simp only [hb, not_true_eq_false, if_false, hr, hack, Bool.false_eq_true,
      if_neg (Bool.false_ne_true)]

theorem C3_amended_witness :
    (clientCommunication ⟨"p", "b"⟩ 5 ⟨"x", "p", "r", "a", true, true, false⟩
        [("r", ⟨[9], 0⟩)] 0).reg = [("r", ⟨[9], 0⟩)] :=
  (C3_amended_rollback ⟨"p", "b"⟩ 5 ⟨"x", "p", "r", "a", true, true, false⟩
      [("r", ⟨[9], 0⟩)] 0 (by decide) (by decide) rfl rfl).1
    ⟨[9], 0⟩ (by decide) (by decide) (by decide)

/-- C10: when the configured banner is empty the handshake substitutes
the literal "ok", so a successfully authenticating client is sent the
plaintext "ok|||<remoteAddr>" at the banner step; and the effective
banner is never the empty string. -/
theorem C10_empty_banner_substituted (cfg : ServerConfig) (c : Nat)
    (inp : CommInput) (reg : Registry) (now : Nat)
    (hping : inp.firstPayload ≠ "ping")
    (hpw : goTrimSpace inp.pw = cfg.password)
    (hb : cfg.banner = "") :
    Event.send ("ok|||" ++ inp.remoteAddr)
        ∈ (clientCommunication cfg c inp reg now).events ∧
    ∀ b : String, effectiveBanner b ≠ "" := by
  constructor
  · have hmsg : effectiveBanner cfg.banner ++ "|||" ++ inp.remoteAddr
        = "ok|||" ++ inp.remoteAddr := by
      rw [hb]
      show "ok" ++ "|||" ++ inp.remoteAddr = "ok|||" ++ inp.remoteAddr
      rw [(by decide : ("ok" ++ "|||" : String) = "ok|||")]
    unfold clientCommunication
    rw [if_neg hping, if_neg (fun hh => hh hpw)]
    simp only [hmsg]
    by_cases hbs : inp.bannerSendOk <;>
      cases hr : regLookup reg inp.roomName <;>
        cases hak : inp.ackSendOk <;>
          simp [hbs, hr, hak]
  · intro b
    unfold effectiveBanner
    by_cases hb2 : b.length = 0
    · simp [hb2]
    · simp only [if_neg hb2]
      intro he
      exact hb2 (he ▸ rfl)

theorem C10_witness :
    Event.send ("ok|||" ++ "addr") ∈ (clientCommunication ⟨"p", ""⟩ 1
        ⟨"x", "p", "r", "addr", true, true, true⟩ [] 0).events :=
  (C10_empty_banner_substituted ⟨"p", ""⟩ 1 ⟨"x", "p", "r", "addr", true, true, true⟩
      [] 0 (by decide) (by decide) rfl).1

theorem sendTargets_append (l1 l2 : List Event) :
    sendTargets (l1 ++ l2) = sendTargets l1 ++ sendTargets l2 := by
  simp [sendTargets, List.filterMap_append]

theorem sendTargets_map_relaySend (l : List Nat) (data : List Nat) :
    sendTargets (l.map (fun c => Event.relaySend c data)) = l := by
  induction l with
  | nil => rfl
  | cons a t ih =>
      simp only [List.map_cons]
      rw [show sendTargets
            (Event.relaySend a data :: t.map (fun c => Event.relaySend c data))
          = a :: sendTargets (t.map (fun c => Event.relaySend c data)) from rfl]
      rw [ih]

/-- C1: for every room present in the registry and every frame received
from a member, the relay loop's broadcast sends the frame to every
current member except the sender, never sends it back to the sender, and
a recipient whose own socket write succeeds receives the frame no matter
how sends to other recipients fare (per-recipient errors are ignored). -/
theorem C1_broadcast_fanout (reg : Registry) (room : String) (sender : Nat)
    (data : List Nat) (r : roomInfo) (sendOk : Nat → Bool)
    (h : regLookup reg room = some r) :
    (∀ f, Event.relaySend sender f ∉ broadcastStep reg room sender data) ∧
    (∀ c ∈ r.conns, c ≠ sender →
        Event.relaySend c data ∈ broadcastStep reg room sender data) ∧
    (∀ c ∈ r.conns, c ≠ sender → sendOk c = true →
        c ∈ deliveredTargets (broadcastStep reg room sender data) sendOk) := by
  have hstep : broadcastStep reg room sender data
      = [Event.lockAcquire]
          ++ (r.conns.filter (fun c => c ≠ sender)).map
              (fun c => Event.relaySend c data)
          ++ [Event.lockRelease] := by
    simp [broadcastStep, h]
  have htargets : sendTargets (broadcastStep reg room sender data)
      = r.conns.filter (fun c => c ≠ sender) := by
    rw [hstep, sendTargets_append, sendTargets_append, sendTargets_map_relaySend]
    simp [sendTargets, List.filterMap_cons]
  refine ⟨?_, ?_, ?_⟩
  · intro f hf
    rw [hstep] at hf
    rcases List.mem_append.mp hf with hf | hf
    · rcases List.mem_append.mp hf with hf | hf
      · simp at hf
      · obtain ⟨x, hx, he⟩ := List.mem_map.mp hf
        have hxs : x = sender := by
          injection he with h1 h2
        have := (List.mem_filter.mp hx).2
        rw [hxs] at this
        simp at this
    · simp at hf
  · intro c hc hne
    rw [hstep]
    refine List.mem_append.mpr (Or.inl ?_)
    refine List.mem_append.mpr (Or.inr ?_)
    exact List.mem_map.mpr ⟨c, List.mem_filter.mpr ⟨hc, by simpa using hne⟩, rfl⟩
  · intro c hc hne hok
    unfold deliveredTargets
    rw [htargets]
    exact List.mem_filter.mpr ⟨List.mem_filter.mpr ⟨hc, by simpa using hne⟩, hok⟩

theorem C1_witness :
    Event.relaySend 2 [9] ∈ broadcastStep [("r", ⟨[1, 2, 3], 0⟩)] "r" 1 [9] ∧
    3 ∈ deliveredTargets (broadcastStep [("r", ⟨[1, 2, 3], 0⟩)] "r" 1 [9])
        (fun c => decide (c ≠ 2)) := by
  have h := C1_broadcast_fanout [("r", ⟨[1, 2, 3], 0⟩)] "r" 1 [9] ⟨[1, 2, 3], 0⟩
    (fun c => decide (c ≠ 2)) (by decide)
  exact ⟨h.2.1 2 (by decide) (by decide), h.2.2 3 (by decide) (by decide) rfl⟩

/-- C9 counterexample: in room "r" with members 1 and 2, the broadcast
of a frame from sender 1 performs a socket send while the registry lock
is held — socket I/O does occur inside the registry's critical section,
so the member list is not sent to after releasing the mutex. -/
theorem C9_counterexample :
    ioInCritical (broadcastStep [("r", ⟨[1, 2], 0⟩)] "r" 1 [5]) 0 = true := by
  decide

/-- C9 amended: the broadcast of `handleRoomConnection` reads the member
list and performs every per-recipient send while still holding the
registry mutex, releasing it only after the last send: its trace is
exactly acquire, the sends, release, and whenever there is at least one
recipient the trace performs socket I/O inside the critical section. -/
theorem C9_amended_broadcast_holds_lock (reg : Registry) (room : String)
    (sender : Nat) (data : List Nat) (r : roomInfo)
    (h : regLookup reg room = some r) :
    broadcastStep reg room sender data
      = [Event.lockAcquire]
          ++ (r.conns.filter (fun c => c ≠ sender)).map
              (fun c => Event.relaySend c data)
          ++ [Event.lockRelease] ∧
    (r.conns.filter (fun c => c ≠ sender) ≠ [] →
        ioInCritical (broadcastStep reg room sender data) 0 = true) := by
  have hstep : broadcastStep reg room sender data
      = [Event.lockAcquire]
          ++ (r.conns.filter (fun c => c ≠ sender)).map
              (fun c => Event.relaySend c data)
          ++ [Event.lockRelease] := by
    simp [broadcastStep, h]
  refine ⟨hstep, fun hne => ?_⟩
  rw [hstep]
  cases hl : r.conns.filter (fun c => c ≠ sender) with
  | nil => exact absurd hl hne
  | cons a t => simp [ioInCritical]

theorem C9_amended_witness :
    ioInCritical (broadcastStep [("r", ⟨[3, 4], 0⟩)] "r" 3 [7]) 0 = true :=
  (C9_amended_broadcast_holds_lock [("r", ⟨[3, 4], 0⟩)] "r" 3 [7] ⟨[3, 4], 0⟩
      (by decide)).2 (by decide)

theorem checkRoomIteration_spec (reg : Registry) (room : String)
    (probeOk : Bool) :
    (checkRoomIteration reg room probeOk).2.1
        = [Event.lockAcquire, Event.lockRelease] ∧
    (checkRoomIteration reg room probeOk).2.2 ≠ LoopOutcome.deleted ∧
    (checkRoomIteration reg room probeOk).1 = reg := by
  unfold checkRoomIteration
  cases hr : regLookup reg room with
  | none => exact ⟨rfl, by simp, rfl⟩
  | some r =>
      by_cases hc : r.conns = []
      · simp [hc]
      · simp [hc]

/-- C5 (code bug): the heartbeat probe of the accept path is dead code:
a pass of the post-join check loop never sends the one-byte probe to the
room's first occupant, never reaches the room-deletion branch, and
leaves the registry unchanged.  In particular, with room "r" occupied by
the single connection 7 whose probe send would fail, the pass breaks out
as "ready" without probing and without deleting the room — contrary to
the claimed probe-then-delete behaviour. -/
theorem C5_heartbeat_probe_dead :
    (checkRoomIteration [("r", ⟨[7], 0⟩)] "r" false
        = ([("r", ⟨[7], 0⟩)], [Event.lockAcquire, Event.lockRelease],
            LoopOutcome.ready)) ∧
    ∀ (reg : Registry) (room : String) (probeOk : Bool),
      (checkRoomIteration reg room probeOk).2.1
          = [Event.lockAcquire, Event.lockRelease] ∧
      (checkRoomIteration reg room probeOk).2.2 ≠ LoopOutcome.deleted ∧
      (checkRoomIteration reg room probeOk).1 = reg :=
  ⟨by decide, fun reg room probeOk => checkRoomIteration_spec reg room probeOk⟩

theorem runCheckLoop_spec (fuel : Nat) :
    ∀ (reg : Registry) (room : String) (probeOk : Nat → Bool),
      (runCheckLoop fuel reg room probeOk).1 = reg ∧
      ∀ e ∈ (runCheckLoop fuel reg room probeOk).2,
        e = Event.lockAcquire ∨ e = Event.lockRelease := by
  induction fuel with
  | zero =>
      intro reg room probeOk
      exact ⟨rfl, by simp [runCheckLoop]⟩
  | succ n ih =>
      intro reg room probeOk
      have hit := checkRoomIteration_spec reg room (probeOk 0)
      rcases hstep : checkRoomIteration reg room (probeOk 0) with ⟨reg2, evs, out⟩
      rw [hstep] at hit
      simp only at hit
      obtain ⟨hevs, hout, hreg⟩ := hit
      cases out with
      | deleted => exact absurd rfl hout
      | again =>
          have ihh := ih reg2 room (fun n => probeOk (n + 1))
          simp only [runCheckLoop, hstep]
          constructor
          · rw [ihh.1, hreg]
          · intro e he
            rcases List.mem_append.mp he with he | he
            · rw [hevs] at he
              rcases List.mem_cons.mp he with he | he
              · exact Or.inl he
              · exact Or.inr (by simpa using he)
            · exact ihh.2 e he
      | roomGone =>
          simp only [runCheckLoop, hstep]
          refine ⟨hreg, fun e he => ?_⟩
          rw [hevs] at he
          rcases List.mem_cons.mp he with he | he
          · exact Or.inl he
          · exact Or.inr (by simpa using he)
      | ready =>
          simp only [runCheckLoop, hstep]
          refine ⟨hreg, fun e he => ?_⟩
          rw [hevs] at he
          rcases List.mem_cons.mp he with he | he
          · exact Or.inl he
          · exact Or.inr (by simpa using he)

/-- C7 counterexample: with password "q" against configured password
"p" and a succeeding failure-message send, the accept path sends the
encrypted "bad password" message but never emits a close of connection 1
— the connection is not closed, because line 276 overwrites the "bad
password" error with the nil result of the successful send, so the
accept goroutine sees no error and its check loop returns without
closing. -/
theorem C7_counterexample :
    Event.send "bad password"
        ∈ (acceptConnection ⟨"p", ""⟩ 1 ⟨"x", "q", "r", "a", true, true, true⟩
            [] 0 3 (fun _ => true)).2 ∧
    Event.close 1
        ∉ (acceptConnection ⟨"p", ""⟩ 1 ⟨"x", "q", "r", "a", true, true, true⟩
            [] 0 3 (fun _ => true)).2 := by
  decide

/-- C7 amended: on a password mismatch the handshake encrypts and sends
the "bad password" failure message as its only send (so no room
information is disclosed) and leaves the registry unchanged; but the
connection is closed by the accept path if and only if that
failure-message send itself fails — when the send succeeds the
handshake returns a nil error and the accept path never closes the
connection. -/
theorem C7_amended_bad_password (cfg : ServerConfig) (c : Nat)
    (inp : CommInput) (reg : Registry) (now fuel : Nat)
    (probeOk : Nat → Bool)
    (hping : inp.firstPayload ≠ "ping")
    (h : goTrimSpace inp.pw ≠ cfg.password) :
    (clientCommunication cfg c inp reg now).events
        = [Event.send "bad password"] ∧
    (clientCommunication cfg c inp reg now).reg = reg ∧
    (clientCommunication cfg c inp reg now).err = !inp.errSendOk ∧
    (Event.close c ∈ (acceptConnection cfg c inp reg now fuel probeOk).2 ↔
        inp.errSendOk = false) := by
  have hres : clientCommunication cfg c inp reg now
      = if inp.errSendOk then
          { room := "", err := false, reg := reg,
            events := [.send "bad password"] }
        else
          { room := "", err := true, reg := reg,
            events := [.send "bad password"] } := by
    unfold clientCommunication
    rw [if_neg hping, if_pos h]
  cases he : inp.errSendOk
  · rw [he] at hres
    simp only [Bool.false_eq_true, if_false] at hres
    refine ⟨by rw [hres], by rw [hres], by rw [hres]; rfl, ?_⟩
    constructor
    · intro _; rfl
    · intro _
      simp only [acceptConnection, hres]
      simp
  · rw [he] at hres
    simp only [if_true] at hres
    refine ⟨by rw [hres], by rw [hres], by rw [hres]; rfl, ?_⟩
    constructor
    · intro hmem
      exfalso
      simp only [acceptConnection, hres] at hmem
      have hpr : ("" : String) ≠ pingRoom := by decide
      simp only [hpr, if_false, Bool.false_eq_true] at hmem
      rcases List.mem_append.mp hmem with hm | hm
      · simp at hm
      · rcases (runCheckLoop_spec fuel reg "" probeOk).2 _ hm with hm | hm <;>
          simp at hm
    · intro hfalse
      exact absurd hfalse (by simp)

theorem C7_amended_witness :
    Event.close 2 ∈ (acceptConnection ⟨"p", ""⟩ 2
        ⟨"x", "q", "r", "a", false, true, true⟩ [] 0 3 (fun _ => true)).2 :=
  ((C7_amended_bad_password ⟨"p", ""⟩ 2 ⟨"x", "q", "r", "a", false, true, true⟩
      [] 0 3 (fun _ => true) (by decide) (by decide)).2.2.2).mpr rfl

/-- C8: in the client handshake, a decrypted banner response that does
not contain the literal separator "|||" makes `ConnectToTCPServer` fail
with the protocol error "bad response: <data>", and a decrypted room
acknowledgement other than exactly "ok" makes it fail with the error
"got bad response: <data>", whose message contains the server's
decrypted response text rather than a generic failure. -/
theorem C8_connect_response_checks (data ack : String)
    (hsep : hasSep data.data = false)
    (hack : ack ≠ "ok") :
    connectBannerStep data = Except.error ("bad response: " ++ data) ∧
    connectAckStep ack = Except.error ("got bad response: " ++ ack) ∧
    ∃ pre, "got bad response: " ++ ack = pre ++ ack := by
  refine ⟨?_, ?_, ⟨"got bad response: ", rfl⟩⟩
  · simp [connectBannerStep, hsep]
  · simp [connectAckStep, hack]

theorem C8_witness :
    connectBannerStep "oops" = Except.error ("bad response: " ++ "oops") ∧
    connectAckStep "bad password"
        = Except.error ("got bad response: " ++ "bad password") := by
  have h := C8_connect_response_checks "oops" "bad password" (by decide) (by decide)
  exact ⟨h.1, h.2.1⟩

end Croc
